import Mathlib

/-!
Verification development for the cnc declarative command-line framework.

The definitions below are a shallow embedding of the Go sources
(src/parser.go, src/type.go, src/options.go).  Strings are modelled at the
character level (the tokens of interest are ASCII, where Go byte indices
and character indices coincide).  Go runtime panics (index out of range,
slice bounds out of range, reflect panics) are modelled as explicit error
values distinct from the ordinary error returns of the library.

The repository files defining the command / argument / path helper types
(GetFlag, AllFlags, AddSubcommand, setScalarValue, setArrayValue, setValue)
are not present under src/; those helpers are modelled from the spec and
each such definition carries a doc comment saying so.

Go maps are unordered; the accumulated flag-value map of Eval is modelled
as an association list in first-insertion order, a fixed determinization.
-/

/-- Kinds of Go runtime panics that the evaluated code can raise. -/
inductive PanicKind where
  | indexOutOfRange
  | sliceOutOfRange
  deriving DecidableEq, Repr

/-- Errors produced by Eval: the ordinary resolution and coercion failures
returned to the caller, plus goPanic for Go runtime panics. -/
inductive EvalErr where
  | commandNotFound (tok : String)
  | noSuchFlag (tok : String)
  | arrayOverCapacity
  | requiredFlagNotSet (long : String)
  | badScalar (raw : String)
  | goPanic (k : PanicKind)
  deriving DecidableEq, Repr

/-- Scalar Go type of a bound field, or of the element type for
array and slice classified arguments. -/
inductive GoTy where
  | strTy
  | intTy
  | boolTy
  | namedTy (n : String)
  deriving DecidableEq, Repr

/-- Value held by a bound field.  A recording TextUnmarshaler keeps the
list of raw strings it has been asked to unmarshal, which makes the number
of delegations observable, exactly as a recording user implementation
would in Go. -/
inductive GoVal where
  | unset
  | str (s : String)
  | int (n : Int)
  | bool (b : Bool)
  | list (xs : List GoVal)
  | tumRec (calls : List String)

/-- Argument node of the command tree (src/parser.go struct argument).
For array and slice classified arguments, typ holds the element type.
The builder fills these fields; Eval only reads them. -/
structure Arg where
  id : Nat
  long : String
  short : String := ""
  typ : GoTy := .strTy
  required : Bool := false
  positional : Bool := false
  isArrayF : Bool := false
  isSliceF : Bool := false
  separate : Bool := false
  arrayLen : Nat := 0
  tum : Bool := false
  enum : Bool := false
  typeName : String := ""
  deriving DecidableEq, Repr

/-- Command node (src/parser.go struct command).  subNil models the Go
test c.subcmd != nil; trees produced by the builder always carry a
non-nil (possibly empty) subcommand map, so subNil is false for them. -/
inductive Cmd where
  | mk : String → List Arg → Bool → List (String × Cmd) → Cmd

def Cmd.name : Cmd → String
  | .mk n _ _ _ => n

def Cmd.args : Cmd → List Arg
  | .mk _ a _ _ => a

def Cmd.subNil : Cmd → Bool
  | .mk _ _ b _ => b

def Cmd.subs : Cmd → List (String × Cmd)
  | .mk _ _ _ s => s

/-- Lookup in a name-keyed table (Go map indexing, determinized). -/
def tblLookup {α : Type} : List (String × α) → String → Option α
  | [], _ => none
  | (k, v) :: r, s => if k == s then some v else tblLookup r s

/-- Mutable per-argument state: the isSet flag, the bound field value and a
ghost counter recording how many times value coercion has been applied to
this argument during the run (in Go this count is observable through a
recording TextUnmarshaler or through repeated appends to an array field). -/
structure ArgSt where
  isSet : Bool := false
  val : GoVal := .unset
  count : Nat := 0

/-- Store of per-argument state, keyed by argument id. -/
def Store : Type := Nat → ArgSt

/-- Initial store: nothing set, all fields at their zero values. -/
def initStore : Store := fun _ => {}

/-- Pointwise store update. -/
def upd (st : Store) (k : Nat) (v : ArgSt) : Store :=
  fun n => if n = k then v else st n

/-- Parser state relevant to Eval: registered root commands and the enum
registry (src/parser.go struct Parser, fields cmds and enums; the enum
tables are keyed by the reflect type, modelled by a type name). -/
structure Parser where
  cmds : List (String × Cmd) := []
  enums : List (String × List (String × Int)) := []

/-- Accumulated raw flag values of one Eval run: the Go map
values of type map from argument pointer to string slice, determinized as
an association list in first-insertion order. -/
def Values : Type := List (Arg × List String)

/-- Reading values at an argument; a missing key yields the empty slice,
as Go map indexing does. -/
def vlookup : Values → Arg → List String
  | [], _ => []
  | (b, l) :: r, a => if b == a then l else vlookup r a

/-- Go values of form values at a becomes append of existing and new. -/
def vappend : Values → Arg → List String → Values
  | [], a, new => [(a, new)]
  | (b, l) :: r, a, new =>
    if b == a then (b, l ++ new) :: r else (b, l) :: vappend r a new

/-- Go assignment values at a becomes the given slice (replacement). -/
def vset : Values → Arg → List String → Values
  | [], a, l2 => [(a, l2)]
  | (b, l) :: r, a, l2 =>
    if b == a then (b, l2) :: r else (b, l) :: vset r a l2

/-- Test from src/parser.go func isFlag: the token starts with a dash
(strings.HasPrefix with a one character pattern) and trimming all leading
dashes leaves something, that is, the token is not made of dashes only. -/
def isFlag (s : String) : Bool :=
  (match s.toList with
   | '-' :: _ => true
   | _ => false)
    && !((s.toList.dropWhile (fun c => c == '-')).isEmpty)

/-- Index of the first occurrence of a character, as strings.Index. -/
def strIndexFrom : List Char → Char → Nat → Option Nat
  | [], _, _ => none
  | c :: r, ch, i => if c == ch then some i else strIndexFrom r ch (i + 1)

/-- Index of the first occurrence of a character in a string. -/
def strIndex (s : String) (ch : Char) : Option Nat :=
  strIndexFrom s.toList ch 0

/-- Prefix of the first n characters, as the Go slice s up to n. -/
def strTake (s : String) (n : Nat) : String :=
  String.mk (s.toList.take n)

/-- Go suffix slice s from n: defined only when n is at most the length,
otherwise the Go runtime raises a slice bounds panic. -/
def goSliceFrom (s : String) (n : Nat) : Option String :=
  if n ≤ s.toList.length then some (String.mk (s.toList.drop n)) else none

/-- Inline-value split of a flag token, from src/parser.go lines 145 to
149: when the token holds an equals sign at index i, the source first
reassigns arg to arg up to i and only then slices the value out of the
already shortened arg from i plus one.  The result is the flag name, the
inline value and the compositeFlag boolean. -/
def splitEq (s : String) : Except PanicKind (String × String × Bool) :=
  match strIndex s '=' with
  | none => .ok (s, "", false)
  | some i =>
    let name := strTake s i
    match goSliceFrom name (i + 1) with
    | none => .error .sliceOutOfRange
    | some v => .ok (name, v, true)

/-- Modelled from the spec: command.GetFlag lives in a repository file
absent from src/.  The flag name is looked up among the current Command
arguments, long or short. -/
def getFlag (c : Cmd) (tok : String) : Option Arg :=
  c.args.find? (fun a => a.long == tok || a.short == tok)

/-- Modelled from the spec: command.AllFlags lives in a repository file
absent from src/.  The final required check covers only those arguments in
the final resolved command own argument set, not its ancestors. -/
def allFlags (c : Cmd) : List Arg := c.args

/-- Modelled from the spec: argument.isBool lives in a repository file
absent from src/.  Boolean arguments with no inline value are assigned the
literal true, so the method reports whether the declared type is boolean. -/
def isBoolArg (a : Arg) : Bool := a.typ == .boolTy

/-- Modelled from Go strconv.ParseBool, used by scalar coercion. -/
def parseGoBool (s : String) : Option Bool :=
  if s == "1" || s == "t" || s == "T" || s == "true" || s == "TRUE" || s == "True" then
    some true
  else if s == "0" || s == "f" || s == "F" || s == "false" || s == "FALSE" || s == "False" then
    some false
  else none

/-- Digits of a decimal literal, none when empty or not all digits. -/
def parseDigits : List Char → Option Nat
  | [] => none
  | l => go l 0
where
  go : List Char → Nat → Option Nat
    | [], acc => some acc
    | c :: r, acc =>
      if c.isDigit then go r (acc * 10 + (c.toNat - '0'.toNat)) else none

/-- Modelled from Go strconv integer parsing, used by scalar coercion. -/
def parseGoInt (s : String) : Option Int :=
  match s.toList with
  | '-' :: r => (parseDigits r).map (fun n => -(n : Int))
  | '+' :: r => (parseDigits r).map (fun n => (n : Int))
  | l => (parseDigits l).map (fun n => (n : Int))

/-- Modelled from the spec: argument.setScalarValue lives in a repository
file absent from src/.  Scalar conversion appropriate to the field kind,
failing with a type mismatch error on malformed input. -/
def convScalar (t : GoTy) (v : String) : Except EvalErr GoVal :=
  match t with
  | .strTy => .ok (.str v)
  | .boolTy =>
    match parseGoBool v with
    | some b => .ok (.bool b)
    | none => .error (.badScalar v)
  | .intTy =>
    match parseGoInt v with
    | some n => .ok (.int n)
    | none => .error (.badScalar v)
  | .namedTy _ =>
    match parseGoInt v with
    | some n => .ok (.int n)
    | none => .error (.badScalar v)

/-- Modelled from the spec: argument.setArrayValue lives in a repository
file absent from src/.  Each raw element is converted to the argument
element type and appended to the bound list or fixed array field, failing
if conversion of any element fails. -/
def setArrayValue (a : Arg) : List String → List GoVal → Except EvalErr (List GoVal)
  | [], acc => .ok acc
  | v :: r, acc =>
    match convScalar a.typ v with
    | .error e => .error e
    | .ok g => setArrayValue a r (acc ++ [g])

/-- Lowercase one ASCII character, as strings.ToLower does on the ASCII
labels enum registration lowercases. -/
def asciiLower (c : Char) : Char :=
  if c.toNat ≥ 65 && c.toNat ≤ 90 then Char.ofNat (c.toNat + 32) else c

/-- Lowercase a label, character by character. -/
def lowerStr (s : String) : String :=
  String.mk (s.toList.map asciiLower)

/-- Modelled from the spec: argument.setValue on an enum lives in a
repository file absent from src/.  The lowercased raw value is looked up
in the enum registry entry of the declared type and the underlying ordinal
is assigned; an unregistered label yields the zero value rather than an
error. -/
def enumValue (p : Parser) (a : Arg) (v : String) : GoVal :=
  match tblLookup p.enums a.typeName with
  | none => .int 0
  | some em =>
    match tblLookup em (lowerStr v) with
    | some n => .int n
    | none => .int 0

/-- Coercion of the raw values of one argument, following the priority
order of src/parser.go func setValues lines 218 to 248: more than one raw
value is an array assignment; otherwise a TextUnmarshaler bound value gets
the delegation; otherwise an enum classified argument gets a registry
lookup; otherwise scalar conversion runs.  cur is the current bound field
value. -/
def applyOne (p : Parser) (a : Arg) (s : List String) (cur : GoVal) : Except EvalErr GoVal :=
  if s.length > 1 then
    match setArrayValue a s (match cur with | .list xs => xs | _ => []) with
    | .error e => .error e
    | .ok xs => .ok (.list xs)
  else
    match s with
    | [] => .error (.goPanic .indexOutOfRange)
    | v :: _ =>
      if a.tum then
        .ok (.tumRec ((match cur with | .tumRec cs => cs | _ => []) ++ [v]))
      else if a.enum then
        .ok (enumValue p a v)
      else
        convScalar a.typ v

/-- Embedding of src/parser.go func setValues: walk the accumulated map,
mark each argument set, run its coercion once and store the result,
halting on the first coercion failure. -/
def setValues (p : Parser) : Values → Store → Except EvalErr Store
  | [], st => .ok st
  | (a, s) :: rest, st =>
    match applyOne p a s ((st a.id).val) with
    | .error e => .error e
    | .ok v =>
      setValues p rest (upd st a.id { isSet := true, val := v, count := (st a.id).count + 1 })

/-- Result of a successful Eval: the final resolved command, the final
per-argument store, the accumulated positional tokens and the names of the
commands appended to the execution tree. -/
structure EvalOk where
  cmd : Cmd
  store : Store
  positionals : List String
  execTree : List String

/-- End of input phase of Eval, src/parser.go lines 205 to 215: one final
commit of the accumulated values, then the required check over the flags
of the final resolved command, in order, failing on the first required
argument whose set-state flag is false. -/
def evalFinish (p : Parser) (c : Cmd) (vs : Values) (st : Store)
    (ps tree : List String) : Except EvalErr EvalOk :=
  match setValues p vs st with
  | .error e => .error e
  | .ok st2 =>
    match (allFlags c).find? (fun a => a.required && !((st2 a.id).isSet)) with
    | some a => .error (.requiredFlagNotSet a.long)
    | none => .ok { cmd := c, store := st2, positionals := ps, execTree := tree }

/-- Greedy capture loop for a slice argument, src/parser.go lines 182 to
188: iterate over the whole remainder of the vector; a token that looks
like a flag is skipped by continue, every other token is appended and the
cursor advances one step. -/
def sliceGreedy : List String → List String
  | [] => []
  | v :: r => if isFlag v then sliceGreedy r else v :: sliceGreedy r

/-- Greedy capture loop for a fixed length array, src/parser.go lines 171
to 180: iterate the declared length many times reading the token after the
cursor; a flag-like token leaves the cursor in place (so the same token is
read again on later iterations), any other token is captured and the
cursor advances; reading past the end of the vector is a Go index panic. -/
def arrayGreedyLoop : Nat → List String → Except PanicKind (List String)
  | 0, _ => .ok []
  | _ + 1, [] => .error .indexOutOfRange
  | n + 1, v :: r =>
    if isFlag v then
      arrayGreedyLoop n (v :: r)
    else
      match arrayGreedyLoop n r with
      | .error e => .error e
      | .ok vs => .ok (v :: vs)

/-- Outcome of processing one token of the main Eval loop. -/
inductive StepRes where
  | err (e : EvalErr)
  | next (c : Cmd) (vs : Values) (st : Store) (pos : Bool)
      (ps tree : List String) (rest : List String)

/-- One iteration of the main loop of src/parser.go func Eval, lines 103
to 203, on token t with remaining vector rest.  The branches appear in
source order: the bare double dash terminator, positional mode, bare
tokens (subcommand lookup committing the accumulated values, with the
values map kept as is, or positional fallback when the subcommand map is
nil), then flag handling: the inline-value split, the flag lookup, array
and slice capture (separate or greedy), and finally the boolean or scalar
value forms.  The help and version checks of the source have empty bodies
and are omitted.  Fetching the token after the cursor at the end of the
vector is a Go index panic. -/
def evalStep (p : Parser) (c : Cmd) (vs : Values) (st : Store) (pos : Bool)
    (ps tree : List String) (t : String) (rest : List String) : StepRes :=
  if t == "--" then
    .next c vs st true ps tree rest
  else if pos then
    .next c vs st pos (ps ++ [t]) tree rest
  else if !(isFlag t) then
    if c.subNil == false then
      match tblLookup c.subs t with
      | none => .err (.commandNotFound t)
      | some cc =>
        match setValues p vs st with
        | .error e => .err e
        | .ok st2 => .next cc vs st2 pos ps (tree ++ [cc.name]) rest
    else
      .next c vs st pos (ps ++ [t]) tree rest
  else
    match splitEq t with
    | .error k => .err (.goPanic k)
    | .ok (name, val, composite) =>
      match getFlag c name with
      | none => .err (.noSuchFlag name)
      | some a =>
        if a.isArrayF || a.isSliceF then
          if a.separate then
            if a.isArrayF && (vlookup vs a).length == a.arrayLen then
              .err .arrayOverCapacity
            else if val == "" then
              match rest with
              | [] => .err (.goPanic .indexOutOfRange)
              | w :: rest2 => .next c (vappend vs a [w]) st pos ps tree rest2
            else
              .next c (vappend vs a [val]) st pos ps tree rest
          else if a.isArrayF then
            match arrayGreedyLoop a.arrayLen rest with
            | .error k => .err (.goPanic k)
            | .ok cap => .next c (vappend vs a cap) st pos ps tree (rest.drop cap.length)
          else
            .next c (vappend vs a (sliceGreedy rest)) st pos ps tree
              (rest.drop (sliceGreedy rest).length)
        else
          if composite then
            .next c (vset vs a [val]) st pos ps tree rest
          else if isBoolArg a then
            .next c (vset vs a ["true"]) st pos ps tree rest
          else
            match rest with
            | [] => .err (.goPanic .indexOutOfRange)
            | w :: rest2 => .next c (vset vs a [w]) st pos ps tree rest2

/-- The main loop of src/parser.go func Eval: process tokens left to
right, then run the end of input phase.  The fuel argument only bounds the
number of iterations so that the recursion is structural: every step
consumes at least the token it examined (theorem evalStep_length below),
so the initial fuel chosen by Eval, the length of the remaining vector, is
never exhausted and the fuel branch is unreachable from Eval. -/
def evalLoop (p : Parser) (fuel : Nat) (c : Cmd) (vs : Values) (st : Store) (pos : Bool)
    (ps tree : List String) (ts : List String) : Except EvalErr EvalOk :=
  match ts with
  | [] => evalFinish p c vs st ps tree
  | t :: rest =>
    match fuel with
    | 0 => .error (.goPanic .indexOutOfRange)
    | fuel2 + 1 =>
      match evalStep p c vs st pos ps tree t rest with
      | .err e => .error e
      | .next c2 vs2 st2 pos2 ps2 tree2 rest2 =>
        evalLoop p fuel2 c2 vs2 st2 pos2 ps2 tree2 rest2

/-- Modelled from Go path/filepath.Base, consulted for the fallback root
lookup: empty input gives a dot, trailing separators are removed, an all
separator input gives the separator, otherwise the last path element. -/
def filepathBase (s : String) : String :=
  if s.isEmpty then "."
  else
    let cs := s.toList.reverse.dropWhile (fun c => c == '/')
    if cs.isEmpty then "/"
    else String.mk ((cs.takeWhile (fun c => !(c == '/'))).reverse)

/-- Embedding of src/parser.go func Eval, lines 85 to 216: the first
element of the vector is read unconditionally (a Go index panic on the
empty vector), looked up among the registered roots by exact name and then
by path basename; a double miss is a command not found error; otherwise
the main token loop runs with an empty values map, positional mode off and
the root appended to the execution tree. -/
def Eval (p : Parser) (st : Store) (args : List String) : Except EvalErr EvalOk :=
  match args with
  | [] => .error (.goPanic .indexOutOfRange)
  | a0 :: rest =>
    match tblLookup p.cmds a0 with
    | some c => evalLoop p rest.length c [] st false [] [c.name] rest
    | none =>
      match tblLookup p.cmds (filepathBase a0) with
      | some c => evalLoop p rest.length c [] st false [] [c.name] rest
      | none => .error (.commandNotFound a0)

/-- Error strategies of the execution engine, src/parser.go lines 253 to
264. -/
inductive OnErrorStrategy where
  | onErrorBreak
  | onErrorPostRunners
  | onErrorPostRunnersContinue
  | onErrorContinue
  deriving DecidableEq, Repr

/-- Execution context: the only value the engine itself stores in it is
the last error under the well-known key, and storing again shadows the
previous entry, as context.WithValue does. -/
structure Ctx where
  lastErr : Option String := none

/-- One hook implementation: reads the context, returns an error or nil. -/
def Hook : Type := Ctx → Option String

/-- One node of the execution tree.  Each lifecycle capability is
independently optional, mirroring the dynamic capability tests of
src/parser.go func Execute. -/
structure Node where
  pPre : Option Hook := none
  pPost : Option Hook := none
  preRun : Option Hook := none
  runH : Option Hook := none
  postRun : Option Hook := none

/-- One hook invocation inside the main loop of Execute: the err variable
is overwritten by the hook result; on a failure the loop breaks unless the
strategy is OnErrorContinue, in which case the error is stored in the
context instead.  The result is the new err, the new context and whether
the loop breaks. -/
def stageHook (strat : OnErrorStrategy) (hook : Option Hook) (err : Option String)
    (ctx : Ctx) : Option String × Ctx × Bool :=
  match hook with
  | none => (err, ctx, false)
  | some h =>
    match h ctx with
    | none => (none, ctx, false)
    | some e =>
      if strat == .onErrorContinue then (some e, { lastErr := some e }, false)
      else (some e, ctx, true)

/-- A run of consecutive hook invocations with break short-circuiting. -/
def stageSeq (strat : OnErrorStrategy) : List (Option Hook) → Option String → Ctx →
    Option String × Ctx × Bool
  | [], err, ctx => (err, ctx, false)
  | hk :: hks, err, ctx =>
    match stageHook strat hk err ctx with
    | (e, c, true) => (e, c, true)
    | (e, c, false) => stageSeq strat hks e c

/-- Main loop of src/parser.go func Execute, lines 285 to 332: for every
node push its persistent post hook (most recent first), run its persistent
pre hook, and only for the last node also run the pre, run and post hooks;
a failing hook breaks the whole loop unless the strategy is
OnErrorContinue.  Returns the err variable, the context and the pushed
stack at loop exit. -/
def execLoop (strat : OnErrorStrategy) : List Node → Option String → Ctx → List Hook →
    Option String × Ctx × List Hook
  | [], err, ctx, stack => (err, ctx, stack)
  | n :: rest, err, ctx, stack =>
    let stack2 := match n.pPost with | some h => h :: stack | none => stack
    let hooks := if rest.isEmpty then [n.pPre, n.preRun, n.runH, n.postRun] else [n.pPre]
    match stageSeq strat hooks err ctx with
    | (e, c, true) => (e, c, stack2)
    | (e, c, false) => execLoop strat rest e c stack2

/-- Deferred phase of src/parser.go func Execute, lines 338 to 346: the
pushed persistent post hooks run most recently entered first; the err
variable is overwritten by each result; a failure returns immediately
under OnErrorPostRunners and is otherwise stored in the context before
continuing.  When the stack is empty the err value carried in is
returned. -/
def postPhase (strat : OnErrorStrategy) : List Hook → Option String → Ctx → Option String
  | [], err, _ => err
  | h :: hs, _, ctx =>
    match h ctx with
    | none => postPhase strat hs none ctx
    | some e =>
      if strat == .onErrorPostRunners then some e
      else postPhase strat hs (some e) { lastErr := some e }

/-- Embedding of src/parser.go func Execute, lines 279 to 348: run the
main loop, return immediately when an error occurred under OnErrorBreak,
otherwise run the deferred persistent post hooks. -/
def ExecuteChain (strat : OnErrorStrategy) (tree : List Node) (ctx : Ctx) : Option String :=
  match execLoop strat tree none ctx [] with
  | (err, ctx2, stack) =>
    if err.isSome && strat == .onErrorBreak then err
    else postPhase strat stack err ctx2

/-- Embedding of src/parser.go func LastErrorFromContext, lines 269 to
271: the value under the well-known key is type asserted to error, which
is a Go runtime panic when nothing was stored. -/
def lastErrorFromContext (ctx : Ctx) : Except PanicKind String :=
  match ctx.lastErr with
  | some e => .ok e
  | none => .error .indexOutOfRange

/-- Kinds reported by reflect for the types that matter here. -/
inductive GoKind where
  | ptrK
  | structK
  | intK
  | boolK
  | stringK
  | sliceK
  | mapK
  deriving DecidableEq, Repr

/-- Reflected Go types, as far as the root registration guard needs. -/
inductive GoType where
  | intT
  | boolT
  | stringT
  | structT (name : String)
  | ptrT (t : GoType)
  | sliceT (t : GoType)
  | mapT (k v : GoType)
  deriving DecidableEq, Repr

/-- Kind of a reflected type. -/
def GoType.kind : GoType → GoKind
  | .intT => .intK
  | .boolT => .boolK
  | .stringT => .stringK
  | .structT _ => .structK
  | .ptrT _ => .ptrK
  | .sliceT _ => .sliceK
  | .mapT _ _ => .mapK

/-- Element type as reflect Elem: defined for pointer, slice and map
kinds; on any other kind the reflect package itself panics. -/
def GoType.elemT : GoType → Option GoType
  | .ptrT t => some t
  | .sliceT t => some t
  | .mapT _ v => some v
  | _ => none

/-- Outcome of registering a root command. -/
inductive RootOutcome where
  | schemaPanic (msg : String)
  | reflectPanic (op : String)
  | registeredThenReflectPanic (op : String)
  | registered
  deriving DecidableEq, Repr

/-- Entry of src/parser.go func walkStruct, lines 388 to 392: a pointer
type is dereferenced, then NumField iterates the fields, which is a
reflect panic when the resulting type is not a struct.  The field walk
itself is irrelevant to the root guard claim and is not modelled beyond
this point; at this stage the root has already been appended to the parser
roots and registered in the command table. -/
def walkStructEntry (t : GoType) : RootOutcome :=
  let u := match t with | .ptrT e => e | _ => t
  match u with
  | .structT _ => .registered
  | _ => .registeredThenReflectPanic "NumField"

/-- Embedding of src/parser.go func NewRootCommand, lines 63 to 77: the
guard panics with the schema message only when the kind is not pointer AND
the element kind is not struct; the conjunction short-circuits, so a
pointer type of any pointee passes the guard, and evaluating Elem on a
kind without an element is a reflect panic.  Past the guard the root is
added and walkStruct runs. -/
def newRootCommand (t : GoType) : RootOutcome :=
  if t.kind == .ptrK then
    walkStructEntry t
  else
    match t.elemT with
    | none => .reflectPanic "Elem"
    | some e =>
      if e.kind == .structK then walkStructEntry t
      else .schemaPanic "not ptr to struct"

/-- Decidable statement of the final required check: on a successful Eval
every required argument of the final resolved command has its set-state
flag true; on any failure the statement holds vacuously. -/
def requiredOkB : Except EvalErr EvalOk → Bool
  | .ok r => (allFlags r.cmd).all (fun a => !a.required || (r.store a.id).isSet)
  | .error _ => true

/-- Fixture: a root command named prog with one plain string flag. -/
def argS : Arg := { id := 0, long := "--s" }

/-- Fixture: command owning only argS, with an empty subcommand table. -/
def cmdS : Cmd := .mk "prog" [argS] false []

/-- Fixture parser registering cmdS under prog. -/
def parserS : Parser := { cmds := [("prog", cmdS)] }

/-- Fixture: a slice flag in separate capture mode. -/
def argXs : Arg := { id := 0, long := "--xs", isSliceF := true, separate := true }

/-- Fixture: a subcommand with no arguments of its own. -/
def cmdSubEmpty : Cmd := .mk "sub" [] false []

/-- Fixture command for the recommit scenario: one separate-mode slice
flag and one subcommand. -/
def cmdRecommit : Cmd := .mk "prog" [argXs] false [("sub", cmdSubEmpty)]

/-- Fixture parser for the recommit scenario. -/
def parserRecommit : Parser := { cmds := [("prog", cmdRecommit)] }

/-- Fixture: a plain string flag used with a subcommand transition. -/
def argX : Arg := { id := 0, long := "--x" }

/-- Fixture command: one scalar flag and one subcommand. -/
def cmdScalarRoot : Cmd := .mk "prog" [argX] false [("sub", cmdSubEmpty)]

/-- Fixture parser for the scalar recommit witness. -/
def parserScalar : Parser := { cmds := [("prog", cmdScalarRoot)] }

/-- Fixture: a required string flag owned by a subcommand. -/
def argReqX : Arg := { id := 1, long := "--x", required := true }

/-- Fixture: a required string flag owned by the root (an ancestor of the
final resolved command in the scenario). -/
def argAnc : Arg := { id := 0, long := "--anc", required := true }

/-- Fixture subcommand owning the required flag argReqX. -/
def cmdSubReq : Cmd := .mk "sub" [argReqX] false []

/-- Fixture root owning required argAnc and the subcommand cmdSubReq. -/
def cmdReqRoot : Cmd := .mk "prog" [argAnc] false [("sub", cmdSubReq)]

/-- Fixture parser for the required flag scenario. -/
def parserReq : Parser := { cmds := [("prog", cmdReqRoot)] }

/-- Fixture execution node: its run hook fails with boom, and its
persistent post hook echoes whatever error is stored in the context under
the well-known key, so its result observes exactly what a deferred hook
can retrieve. -/
def nodeBoom : Node :=
  { pPost := some (fun ctx => ctx.lastErr), runH := some (fun _ => some "boom") }

/-- Every loop step leaves at most the remainder it received: the
continuation list of a next outcome is never longer than the input
remainder, so one unit of fuel per input token suffices for the loop. -/
theorem evalStep_length (p : Parser) (c : Cmd) (vs : Values) (st : Store)
    (pos : Bool) (ps tree : List String) (t : String) (rest : List String)
    (c2 : Cmd) (vs2 : Values) (st2 : Store) (pos2 : Bool) (ps2 tree2 rest2 : List String)
    (h : evalStep p c vs st pos ps tree t rest = .next c2 vs2 st2 pos2 ps2 tree2 rest2) :
    rest2.length ≤ rest.length := by
  unfold evalStep at h
  repeat' split at h
  all_goals first
    | (cases h; simp [List.length_drop])
    | (cases h; simp)
    | cases h
    | omega

/-- The end of input phase always establishes the required check: on its
ok result every required flag of the final command is set. -/
theorem evalFinish_requiredOk (p : Parser) (c : Cmd) (vs : Values) (st : Store)
    (ps tree : List String) :
    requiredOkB (evalFinish p c vs st ps tree) = true := by
  unfold evalFinish
  split
  · rfl
  · split
    · rfl
    · rename_i st2 hsv a hf
      have hall := List.find?_eq_none.mp hf
      simp only [requiredOkB, List.all_eq_true]
      intro b hb
      have := hall b hb
      cases hr : b.required <;> cases hs : (st2 b.id).isSet <;> simp_all

/-- The loop preserves the required check invariant for any fuel: its
result is either an error or an ok result that passed the final required
verification. -/
theorem evalLoop_requiredOk :
    ∀ (fuel : Nat) (ts : List String) (p : Parser) (c : Cmd) (vs : Values)
      (st : Store) (pos : Bool) (ps tree : List String),
      requiredOkB (evalLoop p fuel c vs st pos ps tree ts) = true := by
  intro fuel
  induction fuel with
  | zero =>
    intro ts p c vs st pos ps tree
    cases ts with
    | nil => exact evalFinish_requiredOk p c vs st ps tree
    | cons t rest => rfl
  | succ f ih =>
    intro ts p c vs st pos ps tree
    cases ts with
    | nil => exact evalFinish_requiredOk p c vs st ps tree
    | cons t rest =>
      rw [evalLoop]
      cases hstep : evalStep p c vs st pos ps tree t rest with
      | err e => rfl
      | next c2 vs2 st2 pos2 ps2 tree2 rest2 => exact ih rest2 p c2 vs2 st2 pos2 ps2 tree2

/-- In positional mode the loop only appends tokens to the positional
list: every token except further bare double dashes lands there, nothing
else of the state changes, and the run ends in the ordinary end of input
phase on the untouched values and store. -/
theorem evalLoop_positional (p : Parser) (c : Cmd) (vs : Values) (st : Store)
    (tree : List String) :
    ∀ (ts : List String) (ps : List String) (fuel : Nat), ts.length ≤ fuel →
      evalLoop p fuel c vs st true ps tree ts =
        evalFinish p c vs st (ps ++ ts.filter (fun t => !(t == "--"))) tree := by
  intro ts
  induction ts with
  | nil => intro ps fuel h; simp [evalLoop]
  | cons t rest ih =>
    intro ps fuel h
    match fuel with
    | 0 => simp at h
    | f + 1 =>
      rw [evalLoop]
      have hle : rest.length ≤ f := by simpa using Nat.le_of_succ_le_succ h
      cases ht : t == "--" with
      | true =>
        have hstep : evalStep p c vs st true ps tree t rest = .next c vs st true ps tree rest := by
          simp [evalStep, ht]
        rw [hstep]
        exact (ih ps f hle).trans (by simp [List.filter_cons, ht])
      | false =>
        have hstep : evalStep p c vs st true ps tree t rest =
            .next c vs st true (ps ++ [t]) tree rest := by
          simp [evalStep, ht]
        rw [hstep]
        exact (ih (ps ++ [t]) f hle).trans (by simp [List.filter_cons, ht])

/-- Claim C1 (code bug).  The source is meant to split a flag token on the
first equals sign into name and inline value, but it re-slices the token
that was already shortened to the name: for every token holding an equals
sign the value slice starts past the end of the name, which is a Go slice
bounds panic, so no inline value is ever assigned; in particular
evaluating prog with the token of form dash dash flag equals value ends in
the modelled slice panic rather than assigning the value. -/
theorem claim1_inline_split_panics :
    (∀ (s : String) (i : Nat), strIndex s '=' = some i →
      splitEq s = .error .sliceOutOfRange) ∧
    Eval parserS initStore ["prog", "--flag=value"] = .error (.goPanic .sliceOutOfRange) := by
  constructor
  · intro s i h
    unfold splitEq
    rw [h]
    have hlen : (strTake s i).toList.length ≤ i := by
      show (s.toList.take i).length ≤ i
      rw [List.length_take]
      omega
    have hnone : goSliceFrom (strTake s i) (i + 1) = none := by
      unfold goSliceFrom
      have hsame : (strTake s i).length = (strTake s i).toList.length := rfl
      simp
      omega
    simp [hnone]
  · rfl

/-- Claim C1 witness: the split applied to a concrete inline-value token
panics, by the theorem at the index of its equals sign. -/
theorem claim1_witness : splitEq "--flag=value" = .error .sliceOutOfRange :=
  claim1_inline_split_panics.1 "--flag=value" 6 rfl

/-- Claim C4 (code bug).  A non boolean, non array flag that is the last
token of the vector with no inline value makes the source read the token
after the cursor without any bound check: Eval ends in the modelled Go
index panic, not in an ordinary value-missing resolution error. -/
theorem claim4_value_missing_panics :
    Eval parserS initStore ["prog", "--s"] = .error (.goPanic .indexOutOfRange) := rfl

/-- Claim C6 counterexample.  A bare double dash token consumed as the
value of a preceding scalar flag does not switch the scanner to positional
mode: in this vector the token x stands after a bare double dash token yet
is matched against the subcommand table and produces a command not found
error, refuting the claim as universally stated. -/
theorem claim6_counterexample :
    Eval parserS initStore ["prog", "--s", "--", "x"] = .error (.commandNotFound "x") := rfl

/-- Claim C6 (corrected).  Once the scanner itself processes a bare double
dash token (one not consumed as the value of a flag), every remaining
token only lands in the positional list: the loop performs no flag lookup,
no subcommand match and raises no error on them, ending in the ordinary
end of input phase on the untouched values and store; further bare double
dash tokens are skipped. -/
theorem claim6_after_terminator :
    ∀ (p : Parser) (c : Cmd) (vs : Values) (st : Store) (ps tree ts : List String),
      evalLoop p (ts.length + 1) c vs st false ps tree ("--" :: ts) =
        evalFinish p c vs st (ps ++ ts.filter (fun t => !(t == "--"))) tree := by
  intro p c vs st ps tree ts
  rw [evalLoop]
  have hstep : evalStep p c vs st false ps tree "--" ts = .next c vs st true ps tree ts := by
    simp [evalStep]
  rw [hstep]
  exact evalLoop_positional p c vs st tree ts ps ts.length (Nat.le_refl _)

/-- Claim C7 (code bug).  Under OnErrorPostRunners a failing main run hook
never stores its error in the context: the deferred persistent post hook
of nodeBoom echoes whatever the context holds under the well-known key and
observes nothing, and since the err variable is overwritten by each post
runner the failure is also swallowed and Execute returns nil, contradicting
the documented retrievability of the error.  Under OnErrorBreak the same
failure is returned immediately, and only under OnErrorContinue does the
deferred hook observe the stored error. -/
theorem claim7_error_not_stored :
    ExecuteChain .onErrorPostRunners [nodeBoom] {} = none ∧
    ExecuteChain .onErrorBreak [nodeBoom] {} = some "boom" ∧
    ExecuteChain .onErrorContinue [nodeBoom] {} = some "boom" :=
  ⟨rfl, rfl, rfl⟩

/-- Claim C8 (code bug).  The root registration guard joins its two tests
with a conjunction, so a pointer to a non struct passes it: the root is
registered and the walker then hits the reflect NumField panic, instead of
the schema panic before any building; a plain struct root panics inside
reflect when Elem is evaluated on it; the schema message fires only for a
non pointer kind that has an element of non struct kind; a pointer to
struct builds. -/
theorem claim8_root_guard :
    newRootCommand (.ptrT .intT) = .registeredThenReflectPanic "NumField" ∧
    newRootCommand (.structT "S") = .reflectPanic "Elem" ∧
    newRootCommand (.sliceT .intT) = .schemaPanic "not ptr to struct" ∧
    newRootCommand (.ptrT (.structT "S")) = .registered :=
  ⟨rfl, rfl, rfl, rfl⟩

/-- Claim C9 (confirmed).  Tokens accumulated as positional never touch
the bound fields: in positional mode the loop result equals the end of
input phase on the unchanged values and store with only the positional
list extended, so no argument is written or marked set from positional
tokens; and when the subcommand map is nil an unmatched bare token is
likewise only appended to the positional list. -/
theorem claim9_positionals_inert :
    (∀ (p : Parser) (c : Cmd) (vs : Values) (st : Store) (ps tree ts : List String),
      evalLoop p ts.length c vs st true ps tree ts =
        evalFinish p c vs st (ps ++ ts.filter (fun t => !(t == "--"))) tree) ∧
    (∀ (p : Parser) (n : String) (as2 : List Arg) (subs : List (String × Cmd))
      (fuel : Nat) (vs : Values) (st : Store) (ps tree : List String)
      (t : String) (ts : List String),
      (t == "--") = false → isFlag t = false →
      evalLoop p (fuel + 1) (.mk n as2 true subs) vs st false ps tree (t :: ts) =
        evalLoop p fuel (.mk n as2 true subs) vs st false (ps ++ [t]) tree ts) := by
  constructor
  · intro p c vs st ps tree ts
    exact evalLoop_positional p c vs st tree ts ps ts.length (Nat.le_refl _)
  · intro p n as2 subs fuel vs st ps tree t ts h1 h2
    rw [evalLoop]
    have hstep : evalStep p (.mk n as2 true subs) vs st false ps tree t ts =
        .next (.mk n as2 true subs) vs st false (ps ++ [t]) tree ts := by
      simp [evalStep, h1, h2, Cmd.subNil]
    rw [hstep]

/-- Claim C9 witness: a concrete bare token under a nil subcommand map is
appended to the positional list, by the theorem. -/
theorem claim9_witness :
    evalLoop parserS 1 (.mk "r" [] true []) [] initStore false [] [] ["zzz"] =
      evalLoop parserS 0 (.mk "r" [] true []) [] initStore false ["zzz"] [] [] :=
  claim9_positionals_inert.2 parserS "r" [] [] 0 [] initStore [] [] "zzz" [] rfl rfl

/-- Claim C10 (confirmed).  Eval reads the first element of the vector
unconditionally, so the empty vector ends in the modelled Go index panic
rather than an ordinary error value; and a nonempty vector whose first
token matches no registered root, neither exactly nor through the path
basename fallback, yields a command not found error naming that token. -/
theorem claim10_first_token :
    (∀ (p : Parser) (st : Store), Eval p st [] = .error (.goPanic .indexOutOfRange)) ∧
    (∀ (p : Parser) (st : Store) (n : String) (rest : List String),
      tblLookup p.cmds n = none → tblLookup p.cmds (filepathBase n) = none →
      Eval p st (n :: rest) = .error (.commandNotFound n)) := by
  constructor
  · intro p st
    rfl
  · intro p st n rest h1 h2
    unfold Eval
    simp only [h1, h2]

/-- Claim C10 witness: a concrete unregistered invocation name is a
command not found error, by the theorem. -/
theorem claim10_witness :
    Eval parserS initStore ["nope"] = .error (.commandNotFound "nope") :=
  claim10_first_token.2 parserS initStore "nope" [] rfl rfl

/-- Claim C5 (confirmed).  On every successful Eval every required flag of
the final resolved command has its set-state flag true; supplying a value,
even the empty string for a string field, marks the argument set and
clears the error, and only the final command own arguments are checked: in
the concrete run the unset required ancestor flag raises no error, while
omitting the required subcommand flag yields the error naming its long
form. -/
theorem claim5_required_check :
    (∀ (p : Parser) (st : Store) (args : List String),
      requiredOkB (Eval p st args) = true) ∧
    (Eval parserReq initStore ["prog", "sub", "--x", ""]).map
      (fun r => ((r.store 1).isSet, (r.store 0).isSet, r.cmd.name)) =
      .ok (true, false, "sub") ∧
    Eval parserReq initStore ["prog", "sub"] = .error (.requiredFlagNotSet "--x") := by
  refine ⟨?_, rfl, rfl⟩
  intro p st args
  unfold Eval
  cases args with
  | nil => rfl
  | cons a0 rest =>
    cases h1 : tblLookup p.cmds a0 with
    | some c =>
      simp only [h1]
      exact evalLoop_requiredOk rest.length rest p c [] st false [] [c.name]
    | none =>
      cases h2 : tblLookup p.cmds (filepathBase a0) with
      | some c =>
        simp only [h1, h2]
        exact evalLoop_requiredOk rest.length rest p c [] st false [] [c.name]
      | none =>
        simp only [h1, h2]
        rfl

/-- Unfolding lemma: with successor fuel the loop processes the head
token through one evalStep. -/
theorem evalLoop_cons (p : Parser) (fuel : Nat) (c : Cmd) (vs : Values) (st : Store)
    (pos : Bool) (ps tree : List String) (t : String) (rest : List String) :
    evalLoop p (fuel + 1) c vs st pos ps tree (t :: rest) =
      match evalStep p c vs st pos ps tree t rest with
      | .err e => .error e
      | .next c2 vs2 st2 pos2 ps2 tree2 rest2 =>
        evalLoop p fuel c2 vs2 st2 pos2 ps2 tree2 rest2 := rfl

/-- Unfolding lemma: on the empty remainder the loop runs the end of
input phase, whatever fuel is left. -/
theorem evalLoop_nil (p : Parser) (fuel : Nat) (c : Cmd) (vs : Values) (st : Store)
    (pos : Bool) (ps tree : List String) :
    evalLoop p fuel c vs st pos ps tree [] = evalFinish p c vs st ps tree := by
  cases fuel <;> rfl

/-- Claim C2 counterexample.  A separate-mode slice flag supplied twice
before a subcommand transition is committed at the transition and again at
end of input, because the accumulated map is never cleared: the array
assignment appends its two elements twice, leaving four elements in the
bound field, and the ghost coercion counter reads two, where the claim
predicts a single coercion and two elements. -/
theorem claim2_counterexample :
    (Eval parserRecommit initStore ["prog", "--xs", "a", "--xs", "b", "sub"]).map
      (fun r => ((r.store 0).val, (r.store 0).count)) =
    .ok (.list [.str "a", .str "b", .str "a", .str "b"], 2) := rfl

/-- Claim C2 (corrected).  Accumulated raw values are indeed applied to
bound fields only at a subcommand transition or at end of input, but the
map is not cleared when it is committed at a transition: any schema with a
root scalar string flag followed by one subcommand transition runs the
coercion of that flag twice, once at the transition and once more at the
final commit. -/
theorem claim2_recommit_twice
    (p : Parser) (root sub : Cmd) (a : Arg) (st0 : Store)
    (pname ftok v subname : String)
    (h1 : tblLookup p.cmds pname = some root)
    (h2 : (ftok == "--") = false)
    (h3 : isFlag ftok = true)
    (h4 : splitEq ftok = .ok (ftok, "", false))
    (h5 : getFlag root ftok = some a)
    (h6 : a.isArrayF = false) (h7 : a.isSliceF = false)
    (h8 : isBoolArg a = false)
    (h9 : a.tum = false) (h10 : a.enum = false) (h11 : a.typ = .strTy)
    (h12 : (subname == "--") = false) (h13 : isFlag subname = false)
    (h14 : root.subNil = false)
    (h15 : tblLookup root.subs subname = some sub)
    (h16 : sub.args = []) :
    (Eval p st0 [pname, ftok, v, subname]).map (fun r => (r.store a.id).count) =
      .ok ((st0 a.id).count + 2) := by
  unfold Eval
  simp only [h1]
  have hstep1 : evalStep p root [] st0 false [] [root.name] ftok [v, subname] =
      .next root (vset [] a [v]) st0 false [] [root.name] [subname] := by
    simp [evalStep, h2, h3, h4, h5, h6, h7, h8]
  have hsv1 : setValues p (vset [] a [v]) st0 =
      .ok (upd st0 a.id
        { isSet := true, val := .str v, count := (st0 a.id).count + 1 }) := by
    simp [vset, setValues, applyOne, h9, h10, h11, convScalar]
  have hstep2 : evalStep p root (vset [] a [v]) st0 false [] [root.name] subname [] =
      .next sub (vset [] a [v])
        (upd st0 a.id { isSet := true, val := .str v, count := (st0 a.id).count + 1 })
        false [] ([root.name] ++ [sub.name]) [] := by
    simp [evalStep, h12, h13, h14, h15, hsv1]
  have hsv2 : setValues p (vset [] a [v])
      (upd st0 a.id { isSet := true, val := .str v, count := (st0 a.id).count + 1 }) =
      .ok (upd (upd st0 a.id
            { isSet := true, val := .str v, count := (st0 a.id).count + 1 }) a.id
        { isSet := true, val := .str v, count := (st0 a.id).count + 2 }) := by
    simp [vset, setValues, applyOne, h9, h10, h11, convScalar, upd]
  have e1 : evalLoop p ([ftok, v, subname] : List String).length root [] st0 false []
      [root.name] [ftok, v, subname] =
      evalLoop p (2 + 1) root [] st0 false [] [root.name] [ftok, v, subname] := rfl
  rw [e1, evalLoop_cons]
  simp only [hstep1]
  have e2 : (2 : Nat) = 1 + 1 := rfl
  rw [e2, evalLoop_cons]
  simp only [hstep2]
  rw [evalLoop_nil]
  unfold evalFinish
  rw [hsv2]
  simp [allFlags, h16, upd, Except.map]

/-- Claim C2 witness: the concrete scalar run through one subcommand
transition coerces its flag twice, by the theorem. -/
theorem claim2_witness :
    (Eval parserScalar initStore ["prog", "--x", "v", "sub"]).map
      (fun r => (r.store 0).count) = .ok 2 := by
  have h := claim2_recommit_twice parserScalar cmdScalarRoot cmdSubEmpty argX initStore
    "prog" "--x" "v" "sub" rfl rfl rfl rfl rfl rfl rfl rfl rfl rfl rfl rfl rfl rfl rfl rfl
  simpa using h
